import Mathlib

/-!
Shallow embedding of `generate_doc.py`: a script that assembles a Word
document from a fixed list of Go source files, adding a heading and a
styled code paragraph per existing file, separated by page breaks, and
saving the result once at the end.

The disk is modelled as a partial map from filenames to entries; a
regular file carries `some content` when its bytes decode as UTF-8 and
`none` when reading it raises a decode error (the only modelled fatal
error on the read path).  The document is the ordered list of paragraph
items (headings, page-break paragraphs, code paragraphs) plus its style
collection, mirroring `python-docx`'s `document.paragraphs` and
`document.styles`.
-/

namespace PhaseDoc

/-- One directory entry on disk: a regular file whose content is
`some text` when it decodes as UTF-8 (and `none` when reading raises a
decode error), or a directory. -/
inductive DiskEntry where
  | regular (decoded : Option String)
  | directory
deriving DecidableEq, Repr

/-- The disk: filenames resolved in the current working directory. -/
def Disk : Type := String → Option DiskEntry

/-- `os.path.isfile`: true exactly for an existing regular file. -/
def isfile (fs : Disk) (name : String) : Bool :=
  match fs name with
  | some (DiskEntry.regular _) => true
  | _ => false

/-- `open(name, encoding=utf-8).read()`: `some text` on success, `none`
when the file is absent, a directory, or fails to decode. -/
def readFile (fs : Disk) (name : String) : Option String :=
  match fs name with
  | some (DiskEntry.regular c) => c
  | _ => none

/-- A named paragraph style with the attributes the script sets. -/
structure Style where
  name : String
  fontName : Option String
  fontSizePt : Option Nat
  fontColorRGB : Option (Nat × Nat × Nat)
  shading : Option String
deriving DecidableEq, Repr

/-- A body paragraph of the document: a heading paragraph, a paragraph
holding only a page break, or a code paragraph with its style name and
the shading fill set directly on its paragraph properties. -/
inductive DocItem where
  | heading (text : String) (level : Nat)
  | pageBreak
  | codeParagraph (text : String) (styleName : String) (shading : Option String)
deriving DecidableEq, Repr

/-- The in-memory document: body paragraphs in order plus styles. -/
structure Document where
  paragraphs : List DocItem
  styles : List Style
deriving DecidableEq, Repr

/-- Built-in styles of the default template (none of them is `Code`). -/
def defaultStyles : List Style :=
  [ { name := "Normal", fontName := none, fontSizePt := none,
      fontColorRGB := none, shading := none },
    { name := "Title", fontName := none, fontSizePt := none,
      fontColorRGB := none, shading := none },
    { name := "Heading 1", fontName := none, fontSizePt := none,
      fontColorRGB := none, shading := none } ]

/-- `Document()`: a fresh document with no body paragraphs. -/
def newDocument : Document :=
  { paragraphs := [], styles := defaultStyles }

/-- The hard-coded list of Go files. -/
def GO_FILES : List String :=
  ["blueprint.go", "neuron.go", "eval.go", "utils.go"]

/-- The fixed output document name. -/
def OUTPUT_DOC : String := "Go_Code_Documentation.docx"

/-- The `Code` style as the script creates it: Courier New, 10 pt,
black; no shading is set on the style itself. -/
def codeStyle : Style :=
  { name := "Code", fontName := some "Courier New", fontSizePt := some 10,
    fontColorRGB := some (0, 0, 0), shading := none }

/-- `name in document.styles`: membership by style name. -/
def hasStyle (styles : List Style) (n : String) : Bool :=
  styles.any (fun s => s.name = n)

/-- Look a style up by name (first match). -/
def findStyle (styles : List Style) (n : String) : Option Style :=
  styles.find? (fun s => s.name = n)

/-- The style-registration step of `add_code_paragraph`: create the
`Code` style unless it already exists. -/
def ensureCodeStyle (styles : List Style) : List Style :=
  if hasStyle styles "Code" then styles else styles ++ [codeStyle]

/-- `add_code_paragraph(document, code)`: append a paragraph, register
the `Code` style if absent, set the paragraph style to `Code`, add the
code text as a run, and append a `w:shd` fill `D3D3D3` element directly
to the paragraph's own properties. -/
def add_code_paragraph (document : Document) (code : String) : Document :=
  { paragraphs := document.paragraphs ++
      [DocItem.codeParagraph code "Code" (some "D3D3D3")],
    styles := ensureCodeStyle document.styles }

/-- `document.add_heading(text, level)`. -/
def Document.add_heading (document : Document) (text : String)
    (level : Nat) : Document :=
  { document with paragraphs :=
      document.paragraphs ++ [DocItem.heading text level] }

/-- `document.add_page_break()`: appends a paragraph holding only a
page break. -/
def Document.add_page_break (document : Document) : Document :=
  { document with paragraphs := document.paragraphs ++ [DocItem.pageBreak] }

/-- The warning printed for a missing file. -/
def warningMsg (f : String) : String :=
  "Warning: " ++ f ++ " does not exist and will be skipped."

/-- The completion message printed after the save. -/
def doneMsg : String :=
  "Documentation successfully generated and saved as " ++ OUTPUT_DOC

/-- Outcome of the per-file loop: reached the end with the built
document, or aborted on a fatal (decode) error. -/
inductive RunOutcome where
  | ok (doc : Document) (console : List String)
  | fatalError (console : List String)
deriving DecidableEq, Repr

/-- The `for go_file in GO_FILES` loop body, file by file: skip-and-warn
when the file is absent, otherwise page break when the document already
has paragraphs, heading, read (fatal on decode error), code paragraph. -/
def docLoop (fs : Disk) : List String → Document → List String → RunOutcome
  | [], doc, console => RunOutcome.ok doc console
  | go_file :: rest, doc, console =>
    if isfile fs go_file = false then
      docLoop fs rest doc (console ++ [warningMsg go_file])
    else
      let doc1 := if doc.paragraphs = [] then doc else doc.add_page_break
      let doc2 := doc1.add_heading go_file 1
      match readFile fs go_file with
      | none => RunOutcome.fatalError console
      | some code => docLoop fs rest (add_code_paragraph doc2 code) console

/-- Observable result of one run: the console lines in order and the
save events (output name paired with the document written). -/
structure RunResult where
  console : List String
  saves : List (String × Document)
deriving DecidableEq, Repr

/-- `generate_document()`: fresh document, title heading, per-file
loop, then a single save and the completion message; on a fatal error
nothing is saved. -/
def generate_document (fs : Disk) : RunResult :=
  let document := newDocument
  let document := document.add_heading "Go Code Documentation" 0
  match docLoop fs GO_FILES document [] with
  | RunOutcome.ok doc console =>
    { console := console ++ [doneMsg], saves := [(OUTPUT_DOC, doc)] }
  | RunOutcome.fatalError console =>
    { console := console, saves := [] }

/-- Paragraph items a successfully processed file contributes, in
order: page break, level-1 heading, styled code paragraph. -/
def fileSeg (fs : Disk) (f : String) : List DocItem :=
  [DocItem.pageBreak, DocItem.heading f 1,
   DocItem.codeParagraph ((readFile fs f).getD "") "Code" (some "D3D3D3")]

/-- The files of the fixed list that exist as regular files, in order. -/
def processedFiles (fs : Disk) : List String :=
  GO_FILES.filter (fun f => isfile fs f)

/-- No file of the fixed list triggers a fatal decode error. -/
def noFatal (fs : Disk) : Bool :=
  GO_FILES.all (fun f => !isfile fs f || (readFile fs f).isSome)

/-- Is a paragraph item a page-break paragraph? -/
def isPageBreak : DocItem → Bool
  | DocItem.pageBreak => true
  | _ => false

/-- Number of page breaks in a document. -/
def countPageBreaks (doc : Document) : Nat :=
  (doc.paragraphs.filter isPageBreak).length

/-- Is a paragraph item a code paragraph? -/
def isCodeBlock : DocItem → Bool
  | DocItem.codeParagraph _ _ _ => true
  | _ => false

/-- Number of code paragraphs in a document. -/
def countCodeBlocks (doc : Document) : Nat :=
  (doc.paragraphs.filter isCodeBlock).length

/-- Texts of the level-1 headings of a list of items, in order. -/
def level1OfItems (items : List DocItem) : List String :=
  items.filterMap (fun i =>
    match i with
    | DocItem.heading t 1 => some t
    | _ => none)

/-- Texts of the level-1 headings of a document, in order. -/
def level1Headings (doc : Document) : List String :=
  level1OfItems doc.paragraphs

/-- A disk with every file of the fixed list absent. -/
def fsAllMissing : Disk := fun _ => none

/-- A disk holding exactly one regular file, `blueprint.go`. -/
def fsOneFile : Disk := fun n =>
  if n = "blueprint.go" then some (DiskEntry.regular (some "package a"))
  else none

/-- A disk where `neuron.go` is a regular file whose bytes fail to
decode as UTF-8. -/
def fsUndecodable : Disk := fun n =>
  if n = "neuron.go" then some (DiskEntry.regular none) else none

/-- A disk holding one directory unrelated to the fixed list. -/
def fsExtra : Disk := fun n =>
  if n = "README.md" then some DiskEntry.directory else none

/-- A disk where `blueprint.go` exists but is a directory. -/
def fsDirOnly : Disk := fun n =>
  if n = "blueprint.go" then some DiskEntry.directory else none

/-- The disk with one entry deleted. -/
def removeEntry (fs : Disk) (name : String) : Disk := fun n =>
  if n = name then none else fs n

/-- The document a fatal-error-free run saves. -/
def expectedDoc (fs : Disk) : Document :=
  { paragraphs := DocItem.heading "Go Code Documentation" 0 ::
      (processedFiles fs).flatMap (fileSeg fs),
    styles := if processedFiles fs = [] then defaultStyles
              else defaultStyles ++ [codeStyle] }

/-- Registering the `Code` style twice is the same as once. -/
theorem ensureCodeStyle_idem (s : List Style) :
    ensureCodeStyle (ensureCodeStyle s) = ensureCodeStyle s := by
  unfold ensureCodeStyle
  by_cases h : hasStyle s "Code" = true
  · simp [h]
  · rw [if_neg h]
    have h2 : hasStyle (s ++ [codeStyle]) "Code" = true := by
      simp [hasStyle, codeStyle]
    rw [if_pos h2]

/-- After `ensureCodeStyle`, the `Code` style is present. -/
theorem hasStyle_ensureCodeStyle (s : List Style) :
    hasStyle (ensureCodeStyle s) "Code" = true := by
  unfold ensureCodeStyle
  by_cases h : hasStyle s "Code" = true
  · simp [h]
  · rw [if_neg h]
    simp [hasStyle, codeStyle]

/-- When no `Code` style is present, appending it makes it the one
`find?` locates. -/
theorem findStyle_append_code (s : List Style)
    (h : hasStyle s "Code" = false) :
    findStyle (s ++ [codeStyle]) "Code" = some codeStyle := by
  induction s with
  | nil => simp [findStyle, codeStyle]
  | cons a t ih =>
    simp only [hasStyle, List.any_cons, Bool.or_eq_false_iff] at h
    obtain ⟨h1, h2⟩ := h
    have ih2 := ih (by simpa [hasStyle] using h2)
    simpa [findStyle, List.find?, h1] using ih2

/-- Characterization of the loop on a run with no fatal error: it
reaches the end, appends exactly one page break, heading, and code
paragraph per existing file (a page break before every one, since the
accumulated document is never empty), registers the `Code` style
exactly when at least one file is processed, and prints one warning per
missing file, in order. -/
theorem docLoop_ok (fs : Disk) (files : List String) (doc : Document)
    (console : List String) (hne : doc.paragraphs ≠ [])
    (h : files.all (fun f => !isfile fs f || (readFile fs f).isSome) = true) :
    docLoop fs files doc console =
      RunOutcome.ok
        { paragraphs := doc.paragraphs ++
            (files.filter (fun f => isfile fs f)).flatMap (fileSeg fs),
          styles :=
            if (files.filter (fun f => isfile fs f)) = [] then doc.styles
            else ensureCodeStyle doc.styles }
        (console ++ (files.filter (fun f => !isfile fs f)).map warningMsg) := by
  induction files generalizing doc console with
  | nil => simp [docLoop]
  | cons f rest ih =>
    rw [List.all_cons, Bool.and_eq_true] at h
    obtain ⟨h1, h2⟩ := h
    by_cases hf : isfile fs f = true
    · rw [hf] at h1
      simp only [Bool.not_true, Bool.false_or] at h1
      obtain ⟨code, hcode⟩ := Option.isSome_iff_exists.mp h1
      have step : docLoop fs (f :: rest) doc console =
          docLoop fs rest
            (add_code_paragraph
              ((doc.add_page_break).add_heading f 1) code) console := by
        simp [docLoop, hf, hne, hcode]
      rw [step, ih _ _ (by simp [add_code_paragraph]) h2]
      have hseg : fileSeg fs f =
          [DocItem.pageBreak, DocItem.heading f 1,
           DocItem.codeParagraph code "Code" (some "D3D3D3")] := by
        simp [fileSeg, hcode]
      congr 1
      · congr 1
        · simp [add_code_paragraph, Document.add_heading,
            Document.add_page_break, hf, hseg]
        · simp only [add_code_paragraph, Document.add_heading,
            Document.add_page_break, List.filter_cons, hf, if_pos rfl]
          split
          · simp [add_code_paragraph, Document.add_heading,
              Document.add_page_break, ensureCodeStyle_idem]
          · simp [add_code_paragraph, Document.add_heading,
              Document.add_page_break, ensureCodeStyle_idem]
      · simp [List.filter_cons, hf]
    · have hf2 : isfile fs f = false := by
        cases hx : isfile fs f
        · rfl
        · exact absurd hx hf
      have step : docLoop fs (f :: rest) doc console =
          docLoop fs rest doc (console ++ [warningMsg f]) := by
        simp [docLoop, hf2]
      rw [step, ih _ _ hne h2]
      simp [List.filter_cons, hf2]

/-- When some file of the list is a regular file whose content fails to
decode, the loop aborts with a fatal error. -/
theorem docLoop_fatal (fs : Disk) (files : List String) (doc : Document)
    (console : List String)
    (h : files.all (fun f => !isfile fs f || (readFile fs f).isSome) = false) :
    ∃ c, docLoop fs files doc console = RunOutcome.fatalError c := by
  induction files generalizing doc console with
  | nil => simp [List.all_nil] at h
  | cons f rest ih =>
    rw [List.all_cons] at h
    by_cases hf : isfile fs f = true
    · by_cases hr : (readFile fs f).isSome = true
      · obtain ⟨code, hcode⟩ := Option.isSome_iff_exists.mp hr
        have h2 : rest.all (fun f => !isfile fs f || (readFile fs f).isSome) = false := by
          rw [hf, hr] at h
          simpa using h
        by_cases hne : doc.paragraphs = []
        · have step : docLoop fs (f :: rest) doc console =
              docLoop fs rest
                (add_code_paragraph (doc.add_heading f 1) code) console := by
            simp [docLoop, hf, hne, hcode]
          rw [step]; exact ih _ _ h2
        · have step : docLoop fs (f :: rest) doc console =
              docLoop fs rest
                (add_code_paragraph
                  ((doc.add_page_break).add_heading f 1) code) console := by
            simp [docLoop, hf, hne, hcode]
          rw [step]; exact ih _ _ h2
      · have hr2 : readFile fs f = none := by
          cases hx : readFile fs f
          · rfl
          · rw [hx] at hr; simp at hr
        refine ⟨console, ?_⟩
        by_cases hne : doc.paragraphs = [] <;> simp [docLoop, hf, hne, hr2]
    · have hf2 : isfile fs f = false := by
        cases hx : isfile fs f
        · rfl
        · exact absurd hx hf
      have h2 : rest.all (fun f => !isfile fs f || (readFile fs f).isSome) = false := by
        rw [hf2] at h
        simpa using h
      have step : docLoop fs (f :: rest) doc console =
          docLoop fs rest doc (console ++ [warningMsg f]) := by
        simp [docLoop, hf2]
      rw [step]; exact ih _ _ h2

/-- The loop only inspects the disk through `isfile` and `readFile` at
the files of its list. -/
theorem docLoop_ext (fs1 fs2 : Disk) (files : List String)
    (doc : Document) (console : List String)
    (h : ∀ f ∈ files, isfile fs1 f = isfile fs2 f ∧
      readFile fs1 f = readFile fs2 f) :
    docLoop fs1 files doc console = docLoop fs2 files doc console := by
  induction files generalizing doc console with
  | nil => rfl
  | cons f rest ih =>
    obtain ⟨hif, hrf⟩ := h f (List.mem_cons_self f rest)
    have hrest : ∀ g ∈ rest, isfile fs1 g = isfile fs2 g ∧
        readFile fs1 g = readFile fs2 g :=
      fun g hg => h g (List.mem_cons_of_mem f hg)
    show (if isfile fs1 f = false then _ else _) =
      (if isfile fs2 f = false then _ else _)
    rw [hif]
    by_cases hf : isfile fs2 f = false
    · simp only [if_pos hf]
      exact ih _ _ hrest
    · simp only [if_neg hf]
      rw [hrf]
      cases readFile fs2 f with
      | none => rfl
      | some code => exact ih _ _ hrest

/-- Characterization of a run with no fatal error: the console holds
one warning per missing file in list order followed by the completion
message, and exactly one save of the expected document occurs. -/
theorem generate_document_ok (fs : Disk) (h : noFatal fs = true) :
    generate_document fs =
      { console := (GO_FILES.filter (fun f => !isfile fs f)).map warningMsg
          ++ [doneMsg],
        saves := [(OUTPUT_DOC, expectedDoc fs)] } := by
  have hall : GO_FILES.all (fun f => !isfile fs f || (readFile fs f).isSome) = true := h
  have hloop := docLoop_ok fs GO_FILES
      (newDocument.add_heading "Go Code Documentation" 0) []
      (by simp [newDocument, Document.add_heading]) hall
  have hd : ensureCodeStyle defaultStyles = defaultStyles ++ [codeStyle] := rfl
  simp only [generate_document]
  rw [hloop]
  simp [newDocument, Document.add_heading, expectedDoc, processedFiles, hd]

/-- The level-1 headings contributed by per-file segments are exactly
the file names, in order. -/
theorem level1OfItems_flatMap (fs : Disk) (l : List String) :
    level1OfItems (l.flatMap (fileSeg fs)) = l := by
  induction l with
  | nil => rfl
  | cons f rest ih =>
    rw [List.flatMap_cons]
    show level1OfItems (fileSeg fs f ++ rest.flatMap (fileSeg fs)) = f :: rest
    unfold level1OfItems at *
    rw [List.filterMap_append, ih]
    rfl

/-- C1: the spec says no page break precedes the first successfully
processed file and breaks = processed − 1; on the disk holding exactly
one regular file `blueprint.go` the code saves a document with one
processed file and one page break (the title heading makes
`document.paragraphs` non-empty before the first file), so the claimed
count processed − 1 = 0 is violated. -/
theorem claim1_page_break_bug :
    (processedFiles fsOneFile).length = 1 ∧
    (generate_document fsOneFile).saves.map (fun s => countPageBreaks s.2)
      = [1] ∧
    (generate_document fsOneFile).saves.map (fun s => countPageBreaks s.2)
      ≠ [(processedFiles fsOneFile).length - 1] := by
  refine ⟨by decide, by decide, by decide⟩

/-- C2: on a run with no fatal error, the saved document's level-1
headings are exactly the existing files of the fixed list, in list
order, and each existing file's name occurs exactly once among them. -/
theorem claim2_headings_in_order (fs : Disk) (h : noFatal fs = true) :
    ∃ d, (generate_document fs).saves = [(OUTPUT_DOC, d)] ∧
      level1Headings d = processedFiles fs ∧
      ∀ f ∈ GO_FILES, isfile fs f = true →
        (level1Headings d).count f = 1 := by
  refine ⟨expectedDoc fs, ?_, ?_, ?_⟩
  · rw [generate_document_ok fs h]
  · show level1OfItems (expectedDoc fs).paragraphs = processedFiles fs
    unfold expectedDoc level1OfItems
    rw [List.filterMap_cons]
    exact level1OfItems_flatMap fs (processedFiles fs)
  · intro f hf hfile
    have hlvl : level1Headings (expectedDoc fs) = processedFiles fs := by
      show level1OfItems (expectedDoc fs).paragraphs = processedFiles fs
      unfold expectedDoc level1OfItems
      rw [List.filterMap_cons]
      exact level1OfItems_flatMap fs (processedFiles fs)
    rw [hlvl]
    have hnodup : (processedFiles fs).Nodup :=
      List.Nodup.filter _ (by decide : GO_FILES.Nodup)
    have hmem : f ∈ processedFiles fs :=
      List.mem_filter.mpr ⟨hf, hfile⟩
    exact List.count_eq_one_of_mem hnodup hmem

/-- Witness for C2 at the disk holding only `blueprint.go`. -/
theorem claim2_headings_in_order_witness :
    noFatal fsOneFile = true ∧
    ∃ d, (generate_document fsOneFile).saves = [(OUTPUT_DOC, d)] ∧
      level1Headings d = processedFiles fsOneFile ∧
      ∀ f ∈ GO_FILES, isfile fsOneFile f = true →
        (level1Headings d).count f = 1 :=
  ⟨by decide, claim2_headings_in_order fsOneFile (by decide)⟩

/-- C3: on a run with no fatal error, the console is exactly one
warning line per missing file of the fixed list, in list order,
followed by the completion line; the saved document's paragraphs come
only from the title and the existing files, so a missing entry
contributes no heading, page break, or content, and the run still
reaches the save. -/
theorem claim3_missing_skipped (fs : Disk) (h : noFatal fs = true) :
    (generate_document fs).console =
      (GO_FILES.filter (fun f => !isfile fs f)).map warningMsg ++ [doneMsg] ∧
    ∃ d, (generate_document fs).saves = [(OUTPUT_DOC, d)] ∧
      d.paragraphs = DocItem.heading "Go Code Documentation" 0 ::
        (processedFiles fs).flatMap (fileSeg fs) := by
  rw [generate_document_ok fs h]
  exact ⟨rfl, expectedDoc fs, rfl, rfl⟩

/-- Witness for C3 at the disk holding only `blueprint.go` (the three
other files are missing). -/
theorem claim3_missing_skipped_witness :
    noFatal fsOneFile = true ∧
    ((generate_document fsOneFile).console =
      (GO_FILES.filter (fun f => !isfile fsOneFile f)).map warningMsg
        ++ [doneMsg] ∧
    ∃ d, (generate_document fsOneFile).saves = [(OUTPUT_DOC, d)] ∧
      d.paragraphs = DocItem.heading "Go Code Documentation" 0 ::
        (processedFiles fsOneFile).flatMap (fileSeg fsOneFile)) :=
  ⟨by decide, claim3_missing_skipped fsOneFile (by decide)⟩

/-- C4: the `Code` style is created at most once per document: a second
Formatter invocation leaves the style collection exactly as after the
first; the first invocation on a document without the style appends it,
and an invocation on a document that already has it changes nothing. -/
theorem claim4_style_created_once (doc : Document) (c1 c2 : String) :
    (add_code_paragraph (add_code_paragraph doc c1) c2).styles
      = (add_code_paragraph doc c1).styles ∧
    (hasStyle doc.styles "Code" = false →
      (add_code_paragraph doc c1).styles = doc.styles ++ [codeStyle]) ∧
    (hasStyle doc.styles "Code" = true →
      (add_code_paragraph doc c1).styles = doc.styles) := by
  refine ⟨?_, ?_, ?_⟩
  · show ensureCodeStyle (ensureCodeStyle doc.styles) = ensureCodeStyle doc.styles
    exact ensureCodeStyle_idem doc.styles
  · intro h
    show ensureCodeStyle doc.styles = doc.styles ++ [codeStyle]
    unfold ensureCodeStyle
    rw [if_neg (by rw [h]; exact Bool.false_ne_true)]
  · intro h
    show ensureCodeStyle doc.styles = doc.styles
    unfold ensureCodeStyle
    rw [if_pos h]

/-- Witness for C4: a fresh document lacks the style, so the first
invocation registers it; the resulting document has it, so the next
invocation leaves the styles unchanged. -/
theorem claim4_style_created_once_witness :
    (hasStyle newDocument.styles "Code" = false ∧
      (add_code_paragraph newDocument "a").styles
        = newDocument.styles ++ [codeStyle]) ∧
    (hasStyle (add_code_paragraph newDocument "a").styles "Code" = true ∧
      (add_code_paragraph (add_code_paragraph newDocument "a") "b").styles
        = (add_code_paragraph newDocument "a").styles) :=
  ⟨⟨by decide, (claim4_style_created_once newDocument "a" "b").2.1 (by decide)⟩,
   ⟨by decide,
    (claim4_style_created_once (add_code_paragraph newDocument "a") "b" "c").2.2
      (by decide)⟩⟩

/-- C5 counterexample: after a concrete Formatter invocation on a fresh
document, the registered `Code` style carries font name, size, and
color but no shading attribute (its shading is `none`, not the light
gray fill), so the shading is not an attribute of the registered
style. -/
theorem claim5_shading_not_in_style :
    findStyle
      (add_code_paragraph
        (Document.add_heading newDocument "Go Code Documentation" 0)
        "x").styles "Code" = some codeStyle ∧
    codeStyle.shading = none ∧
    codeStyle.shading ≠ some "D3D3D3" := by
  refine ⟨by decide, rfl, by decide⟩

/-- C5 amended: every code block appended by the Formatter is a
paragraph styled `Code` with the light-gray shading fill set directly
on the paragraph; when the style was not yet registered, the Formatter
registers the `Code` style with fixed-width `Courier New`, 10-point
size, and black color — those three are attributes of the style, while
the shading is not (the style's shading is `none`). -/
theorem claim5_code_style_attributes (doc : Document) (c : String)
    (h : hasStyle doc.styles "Code" = false) :
    (add_code_paragraph doc c).paragraphs =
      doc.paragraphs ++ [DocItem.codeParagraph c "Code" (some "D3D3D3")] ∧
    findStyle (add_code_paragraph doc c).styles "Code" = some codeStyle ∧
    codeStyle.fontName = some "Courier New" ∧
    codeStyle.fontSizePt = some 10 ∧
    codeStyle.fontColorRGB = some (0, 0, 0) ∧
    codeStyle.shading = none := by
  refine ⟨rfl, ?_, rfl, rfl, rfl, rfl⟩
  show findStyle (ensureCodeStyle doc.styles) "Code" = some codeStyle
  unfold ensureCodeStyle
  rw [if_neg (by rw [h]; exact Bool.false_ne_true)]
  exact findStyle_append_code doc.styles h

/-- Witness for C5 amended at a fresh document. -/
theorem claim5_code_style_attributes_witness :
    hasStyle newDocument.styles "Code" = false ∧
    ((add_code_paragraph newDocument "x").paragraphs =
      newDocument.paragraphs ++
        [DocItem.codeParagraph "x" "Code" (some "D3D3D3")] ∧
    findStyle (add_code_paragraph newDocument "x").styles "Code"
      = some codeStyle ∧
    codeStyle.fontName = some "Courier New" ∧
    codeStyle.fontSizePt = some 10 ∧
    codeStyle.fontColorRGB = some (0, 0, 0) ∧
    codeStyle.shading = none) :=
  ⟨by decide, claim5_code_style_attributes newDocument "x" (by decide)⟩

/-- C6: when every file of the fixed list is missing, the run still
saves: the document holds only the title heading, with zero page breaks
and zero code blocks, and the console holds the four warnings followed
by the completion message. -/
theorem claim6_all_missing (fs : Disk)
    (h : ∀ f ∈ GO_FILES, isfile fs f = false) :
    ∃ d, (generate_document fs).saves = [(OUTPUT_DOC, d)] ∧
      d.paragraphs = [DocItem.heading "Go Code Documentation" 0] ∧
      countPageBreaks d = 0 ∧ countCodeBlocks d = 0 ∧
      (generate_document fs).console = GO_FILES.map warningMsg ++ [doneMsg] := by
  have hnf : noFatal fs = true := by
    unfold noFatal
    rw [List.all_eq_true]
    intro f hf
    rw [h f hf]
    rfl
  have hproc : processedFiles fs = [] := by
    unfold processedFiles
    rw [List.filter_eq_nil_iff]
    intro f hf
    rw [h f hf]
    exact Bool.false_ne_true
  have hwarn : GO_FILES.filter (fun f => !isfile fs f) = GO_FILES := by
    rw [List.filter_eq_self]
    intro f hf
    rw [h f hf]
    rfl
  refine ⟨expectedDoc fs, ?_, ?_, ?_, ?_, ?_⟩
  · rw [generate_document_ok fs hnf]
  · unfold expectedDoc
    rw [hproc]
    rfl
  · unfold countPageBreaks expectedDoc
    rw [hproc]
    rfl
  · unfold countCodeBlocks expectedDoc
    rw [hproc]
    rfl
  · rw [generate_document_ok fs hnf]
    show (GO_FILES.filter (fun f => !isfile fs f)).map warningMsg ++ [doneMsg]
      = GO_FILES.map warningMsg ++ [doneMsg]
    rw [hwarn]

/-- Witness for C6 at the disk with every file absent. -/
theorem claim6_all_missing_witness :
    (∀ f ∈ GO_FILES, isfile fsAllMissing f = false) ∧
    ∃ d, (generate_document fsAllMissing).saves = [(OUTPUT_DOC, d)] ∧
      d.paragraphs = [DocItem.heading "Go Code Documentation" 0] ∧
      countPageBreaks d = 0 ∧ countCodeBlocks d = 0 ∧
      (generate_document fsAllMissing).console
        = GO_FILES.map warningMsg ++ [doneMsg] :=
  ⟨by decide, claim6_all_missing fsAllMissing (by decide)⟩

/-- C7: at most one save occurs per run; a run with no fatal error
saves exactly once (to the fixed output name, after the loop), and a
run hit by a fatal decode error saves nothing, leaving no output from
this run. -/
theorem claim7_single_save (fs : Disk) :
    (generate_document fs).saves.length ≤ 1 ∧
    (noFatal fs = true →
      ∃ d, (generate_document fs).saves = [(OUTPUT_DOC, d)]) ∧
    (noFatal fs = false → (generate_document fs).saves = []) := by
  rcases Bool.eq_false_or_eq_true (noFatal fs) with hb | hb
  · have hrun := generate_document_ok fs hb
    refine ⟨by rw [hrun]; exact Nat.le_refl 1, ?_, ?_⟩
    · intro _
      exact ⟨expectedDoc fs, by rw [hrun]⟩
    · intro hf
      rw [hb] at hf
      exact Bool.noConfusion hf
  · obtain ⟨c, hc⟩ := docLoop_fatal fs GO_FILES
      (newDocument.add_heading "Go Code Documentation" 0) [] hb
    have hrun : (generate_document fs).saves = [] := by
      simp only [generate_document]
      rw [hc]
    refine ⟨by rw [hrun]; exact Nat.zero_le 1, ?_, fun _ => hrun⟩
    intro ht
    rw [hb] at ht
    exact Bool.noConfusion ht

/-- Witness for C7: the all-missing disk has no fatal error and its run
saves exactly once; a disk whose `neuron.go` fails to decode saves
nothing. -/
theorem claim7_single_save_witness :
    (noFatal fsAllMissing = true ∧
      ∃ d, (generate_document fsAllMissing).saves = [(OUTPUT_DOC, d)]) ∧
    (noFatal fsUndecodable = false ∧
      (generate_document fsUndecodable).saves = []) :=
  ⟨⟨by decide, (claim7_single_save fsAllMissing).2.1 (by decide)⟩,
   ⟨by decide, (claim7_single_save fsUndecodable).2.2 (by decide)⟩⟩

/-- C8: the run is deterministic and depends only on the disk's state
at the files of the fixed list: two disks agreeing there produce
identical console output and identical saved documents. -/
theorem claim8_deterministic (fs1 fs2 : Disk)
    (h : ∀ f ∈ GO_FILES, fs1 f = fs2 f) :
    generate_document fs1 = generate_document fs2 := by
  simp only [generate_document]
  rw [docLoop_ext fs1 fs2 GO_FILES _ []
    (fun f hf => by unfold isfile readFile; rw [h f hf]; exact ⟨rfl, rfl⟩)]

/-- Witness for C8: a disk holding an unrelated directory agrees with
the empty disk on the fixed list, and the two runs coincide. -/
theorem claim8_deterministic_witness :
    (∀ f ∈ GO_FILES, fsExtra f = fsAllMissing f) ∧
    generate_document fsExtra = generate_document fsAllMissing :=
  ⟨by decide, claim8_deterministic fsExtra fsAllMissing (by decide)⟩

/-- C9: an entry of the fixed list that exists as a directory fails the
`isfile` check, so the run treats it exactly as if the entry were
absent: same warnings, same document, no fatal read. -/
theorem claim9_directory_like_missing (fs : Disk) (name : String)
    (h : fs name = some DiskEntry.directory) :
    isfile fs name = false ∧
    generate_document fs = generate_document (removeEntry fs name) := by
  refine ⟨by unfold isfile; rw [h], ?_⟩
  simp only [generate_document]
  rw [docLoop_ext fs (removeEntry fs name) GO_FILES _ []
    (fun f _ => by
      by_cases hfn : f = name
      · subst hfn
        unfold isfile readFile removeEntry
        rw [h, if_pos rfl]
        exact ⟨rfl, rfl⟩
      · unfold isfile readFile removeEntry
        rw [if_neg hfn]
        exact ⟨rfl, rfl⟩)]

/-- Witness for C9 at a disk where `blueprint.go` is a directory. -/
theorem claim9_directory_like_missing_witness :
    fsDirOnly "blueprint.go" = some DiskEntry.directory ∧
    (isfile fsDirOnly "blueprint.go" = false ∧
      generate_document fsDirOnly
        = generate_document (removeEntry fsDirOnly "blueprint.go")) :=
  ⟨rfl, claim9_directory_like_missing fsDirOnly "blueprint.go" rfl⟩

/-- C10: every Formatter invocation appends a code paragraph carrying
the fill `D3D3D3` on its own paragraph properties, unconditionally and
whether or not the `Code` style already existed; the style collection
is untouched when the style exists and otherwise gains exactly the
`Code` style, whose own shading attribute is `none` — the shading is
not part of the registered style. -/
theorem claim10_shading_per_paragraph (doc : Document) (c : String) :
    (add_code_paragraph doc c).paragraphs =
      doc.paragraphs ++ [DocItem.codeParagraph c "Code" (some "D3D3D3")] ∧
    (hasStyle doc.styles "Code" = true →
      (add_code_paragraph doc c).styles = doc.styles) ∧
    (hasStyle doc.styles "Code" = false →
      findStyle (add_code_paragraph doc c).styles "Code" = some codeStyle) ∧
    codeStyle.shading = none := by
  refine ⟨rfl, ?_, ?_, rfl⟩
  · intro h
    show ensureCodeStyle doc.styles = doc.styles
    unfold ensureCodeStyle
    rw [if_pos h]
  · intro h
    show findStyle (ensureCodeStyle doc.styles) "Code" = some codeStyle
    unfold ensureCodeStyle
    rw [if_neg (by rw [h]; exact Bool.false_ne_true)]
    exact findStyle_append_code doc.styles h

/-- Witness for C10: on a fresh document the style is absent and gets
registered without shading; on the result it is present and a second
invocation leaves the styles untouched while still shading its own
paragraph. -/
theorem claim10_shading_per_paragraph_witness :
    (hasStyle newDocument.styles "Code" = false ∧
      findStyle (add_code_paragraph newDocument "x").styles "Code"
        = some codeStyle) ∧
    (hasStyle (add_code_paragraph newDocument "x").styles "Code" = true ∧
      (add_code_paragraph (add_code_paragraph newDocument "x") "y").styles
        = (add_code_paragraph newDocument "x").styles) ∧
    (add_code_paragraph (add_code_paragraph newDocument "x") "y").paragraphs
      = (add_code_paragraph newDocument "x").paragraphs ++
        [DocItem.codeParagraph "y" "Code" (some "D3D3D3")] :=
  ⟨⟨by decide,
    (claim10_shading_per_paragraph newDocument "x").2.2.1 (by decide)⟩,
   ⟨by decide,
    (claim10_shading_per_paragraph (add_code_paragraph newDocument "x") "y").2.1
      (by decide)⟩,
   (claim10_shading_per_paragraph (add_code_paragraph newDocument "x") "y").1⟩

end PhaseDoc
